import Mathlib

/-!
Shallow embedding of the core algorithms of `src/main.py` from the
`mandarin_bean_to_doc` repository: the sentence reconstructor
(`_paragraph_to_text`), the vocabulary extractor
(`_soup_to_raw_lookup_list`), the word-list sanitizer
(`ArticleTextCollection.sanitized_word_list`), the column/page flow engine
(`_fill_words_into_columns`) and the per-article collection loop
(`Main._get_text_collection`).  Strings are modelled as `List Char`
(Python string indexing is by code point, matching list indexing).
-/

namespace MandarinBean

/-- Model of Python's regex `\w` (word character) restricted to the
character classes appearing in this development: ASCII alphanumerics,
underscore, and CJK unified ideographs. -/
def isWordChar (c : Char) : Bool :=
  c.isAlphanum || c = '_' || (0x4E00 ≤ c.toNat && c.toNat ≤ 0x9FFF)

/-- The pattern `pat` occurs in `s` starting at index `i`. -/
def subAt (s : List Char) (i : Nat) (pat : List Char) : Bool :=
  pat.isPrefixOf (s.drop i)

def abbrCloseTag : List Char := ("</abbr>".data)

def abbrOpenTag : List Char := ("<abbr".data)

def trOpenTag : List Char := ("<span class=\"tr\">".data)

def spanCloseTag : List Char := ("</span>".data)

def pCloseTag : List Char := ("</p>".data)

/-- One match of Python's `re.finditer("</abbr>(\W)<abbr", s)` attempted at
index `i`: the literal `</abbr>`, one non-word character (the captured
group), then the literal `<abbr`.  Returns the captured character. -/
def punctAt (s : List Char) (i : Nat) : Option Char :=
  if subAt s i abbrCloseTag && subAt s (i + 8) abbrOpenTag then
    match s.drop (i + 7) with
    | c :: _ => if isWordChar c then none else some c
    | [] => none
  else none

/-- Left-to-right non-overlapping scan for `</abbr>(\W)<abbr`, recording
`(start of group 1, captured text)` like the Python dict comprehension.
The fuel argument bounds the number of scanning steps. -/
def scanPunct (s : List Char) : Nat → Nat → List (Nat × List Char)
  | 0, _ => []
  | fuel + 1, i =>
    if i < s.length then
      match punctAt s i with
      | some c => (i + 7, [c]) :: scanPunct s fuel (i + 13)
      | none => scanPunct s fuel (i + 1)
    else []

/-- One match of `re.finditer(r'<span class="tr">(\w*)</span>', s)`
attempted at index `i`: the captured group is the maximal run of word
characters, which must be followed by the literal `</span>`. -/
def trAt (s : List Char) (i : Nat) : Option (List Char) :=
  if subAt s i trOpenTag then
    let run := (s.drop (i + 17)).takeWhile isWordChar
    if subAt s (i + 17 + run.length) spanCloseTag then some run else none
  else none

/-- Left-to-right non-overlapping scan for `<span class="tr">(\w*)</span>`,
recording `(start of group 1, captured text)`. -/
def scanTr (s : List Char) : Nat → Nat → List (Nat × List Char)
  | 0, _ => []
  | fuel + 1, i =>
    if i < s.length then
      match trAt s i with
      | some run => (i + 17, run) :: scanTr s fuel (i + 17 + run.length + 7)
      | none => scanTr s fuel (i + 1)
    else []

/-- Index of the last occurrence of `</p>` in `line`, if any (the greedy
`.*` backtracks to the rightmost `</p>` on the line). -/
def lastClosingP (line : List Char) : Option Nat :=
  (List.range line.length).foldl
    (fun acc j => if subAt line j pCloseTag then some j else acc) none

/-- One match of `re.finditer("</abbr>(.*)</p>", s)` attempted at index
`i`.  Python's `.` does not cross a newline, and `.*` is greedy, so the
captured group runs from just after `</abbr>` to the last `</p>` on the
same line.  Returns the captured text together with the index just past
the whole match. -/
def eopAt (s : List Char) (i : Nat) : Option (List Char × Nat) :=
  if subAt s i abbrCloseTag then
    let line := (s.drop (i + 7)).takeWhile (fun c => c ≠ '\n')
    match lastClosingP line with
    | some j => some (line.take j, i + 7 + j + 4)
    | none => none
  else none

/-- Left-to-right non-overlapping scan for `</abbr>(.*)</p>`, recording
`(start of group 1, captured text)`. -/
def scanEop (s : List Char) : Nat → Nat → List (Nat × List Char)
  | 0, _ => []
  | fuel + 1, i =>
    if i < s.length then
      match eopAt s i with
      | some (grp, stop) => (i + 7, grp) :: scanEop s fuel stop
      | none => scanEop s fuel (i + 1)
    else []

/-- The three fragment dictionaries in the order they are unioned in the
source: `punctuation_indices | tr_indices | end_of_paragraph_indices`.
A later pair with the same key overrides an earlier one, exactly like
Python's dict union. -/
def combinedFragments (s : List Char) : List (Nat × List Char) :=
  scanPunct s (s.length + 1) 0 ++ scanTr s (s.length + 1) 0 ++
    scanEop s (s.length + 1) 0

/-- Value stored at key `k` after Python's left-to-right dict union: the
last pair carrying that key wins. -/
def lastVal (ps : List (Nat × List Char)) (k : Nat) : List Char :=
  match (ps.filter (fun p => p.1 == k)).getLast? with
  | some p => p.2
  | none => []

def insertNat (x : Nat) : List Nat → List Nat
  | [] => [x]
  | y :: ys => if x ≤ y then x :: y :: ys else y :: insertNat x ys

/-- Ascending insertion sort on keys (models `sorted(combined.keys())`). -/
def sortNat : List Nat → List Nat
  | [] => []
  | x :: xs => insertNat x (sortNat xs)

/-- Collapse adjacent duplicates of a sorted list (a dict has each key
once). -/
def collapseDups : List Nat → List Nat
  | [] => []
  | [x] => [x]
  | x :: y :: ys =>
    if x = y then collapseDups (y :: ys) else x :: collapseDups (y :: ys)

/-- Embedding of `MainArticleFetcher._paragraph_to_text`: build the three
fragment dictionaries from the raw paragraph markup, union them with the
later dictionaries overriding, and join the values in ascending key
order. -/
def _paragraph_to_text (s : String) : String :=
  let ps := combinedFragments s.data
  let keys := collapseDups (sortNat (ps.map Prod.fst))
  String.mk (keys.map (lastVal ps)).flatten

/-- The pattern occurs somewhere in `s` (at any index). -/
def occursIn (s : List Char) (pat : List Char) : Bool :=
  (List.range (s.length + 1)).any (fun i => subAt s i pat)

/-! ## Vocabulary extraction (`_soup_to_raw_lookup_list`) -/

/-- Module-level constant `MIN_HSK_LEVEL = 4` from the source. -/
def MIN_HSK_LEVEL : Nat := 4

/-- Model of one `<abbr rel="tooltip">` element: its `title` attribute and
the inner texts of its `.tr` sub-span and `rt` sub-span (`none` models a
missing sub-span, on which Python's `select_one(...).text` raises). -/
structure AbbrTag where
  title : String
  tr : Option String
  rt : Option String
  deriving DecidableEq

/-- Python `str.split("\n")`: split at every newline, keeping empty
pieces; the result is never the empty list. -/
def splitLines : List Char → List (List Char)
  | [] => [[]]
  | c :: rest =>
    if c = '\n' then [] :: splitLines rest
    else
      match splitLines rest with
      | w :: ws => (c :: w) :: ws
      | [] => [[c]]

/-- `t.attrs["title"].split("\n")[-1]`: the last line of the title. -/
def lastLine (s : String) : String :=
  String.mk ((splitLines s.data).getLastD [])

def digitsToNat (ds : List Char) : Nat :=
  ds.foldl (fun acc c => 10 * acc + (c.toNat - ('0').toNat)) 0

/-- One match of `re.search(r"HSK(\d+)", s)` attempted at index `i`: the
literal `HSK` followed by at least one digit; the captured group is the
maximal digit run, converted by `int`. -/
def hskAt (s : List Char) (i : Nat) : Option Nat :=
  if subAt s i ("HSK".data) then
    let run := (s.drop (i + 3)).takeWhile Char.isDigit
    if run.isEmpty then none else some (digitsToNat run)
  else none

/-- Left-to-right search for the first `HSK(\d+)` match. -/
def findHSK (s : List Char) : Nat → Nat → Option Nat
  | 0, _ => none
  | fuel + 1, i =>
    if i < s.length then
      match hskAt s i with
      | some l => some l
      | none => findHSK s fuel (i + 1)
    else none

/-- `re.search(r"HSK(\d+)", s)`, returning the parsed level. -/
def searchHSK (s : String) : Option Nat :=
  findHSK s.data (s.data.length + 1) 0

/-- The `continue` guard of the loop: a parsed level strictly below
`MIN_HSK_LEVEL` causes the word to be skipped. -/
def skipByLevel (translation : String) : Bool :=
  match searchHSK translation with
  | some l => decide (l < MIN_HSK_LEVEL)
  | none => false

/-- `pinyin.replace("\xa0", " ")`: non-breaking spaces become spaces. -/
def replaceNbsp (s : String) : String :=
  String.mk (s.data.map (fun c => if c = '\u00A0' then ' ' else c))

/-- Embedding of `MainArticleFetcher._soup_to_raw_lookup_list`: walk the
`abbr` tags in document order; take the last title line, skip the word
when its parsed HSK level is below `MIN_HSK_LEVEL`, then read the `.tr`
and `rt` sub-spans.  A missing sub-span raises in Python, which the
`Option` result models: the whole extraction yields `none`. -/
def soupToRawLookupList : List AbbrTag → Option (List (String × String × String))
  | [] => some []
  | t :: rest =>
    let translation := lastLine t.title
    if skipByLevel translation then soupToRawLookupList rest
    else
      match t.tr, t.rt with
      | some trv, some rtv =>
        (soupToRawLookupList rest).map
          (fun ws => (translation, replaceNbsp rtv, trv) :: ws)
      | _, _ => none

/-! ## Word-list sanitization (`ArticleTextCollection.sanitized_word_list`) -/

/-- Python `w.lstrip("\n")`. -/
def pyLstripNewline (s : List Char) : List Char :=
  s.dropWhile (fun c => c = '\n')

/-- Python `w.rstrip('"n')`: remove trailing `"` and `n` characters. -/
def pyRstripQuoteN (s : List Char) : List Char :=
  (s.reverse.dropWhile (fun c => c = '"' || c = 'n')).reverse

/-- Python `w.strip()` (whitespace on both ends; `Char.isWhitespace`
covers the ASCII whitespace occurring in this development). -/
def pyStrip (s : List Char) : List Char :=
  ((s.dropWhile Char.isWhitespace).reverse.dropWhile Char.isWhitespace).reverse

/-- One match of the pattern `\(HSK\d+\)` attempted at index `i`,
returning the length of the whole match. -/
def hskTagAt (s : List Char) (i : Nat) : Option Nat :=
  if subAt s i ("(HSK".data) then
    let run := (s.drop (i + 4)).takeWhile Char.isDigit
    if run.isEmpty then none
    else if subAt s (i + 4 + run.length) (")".data) then
      some (4 + run.length + 1)
    else none
  else none

/-- Left-to-right non-overlapping deletion of every `\(HSK\d+\)` match
(`re.sub(r"\(HSK\d+\)", "", w)`). -/
def removeHSKAux (s : List Char) : Nat → Nat → List Char
  | 0, _ => []
  | fuel + 1, i =>
    if h : i < s.length then
      match hskTagAt s i with
      | some len => removeHSKAux s fuel (i + len)
      | none => s.get ⟨i, h⟩ :: removeHSKAux s fuel (i + 1)
    else []

def removeHSKTags (s : List Char) : List Char :=
  removeHSKAux s (s.length + 1) 0

/-- The per-entry transformation of `sanitized_word_list`:
`w.lstrip("\n").rstrip('"n').strip()` followed by
`re.sub(r"\(HSK\d+\)", "", w)`. -/
def sanitizeEntry (w : String) : String :=
  String.mk (removeHSKTags (pyStrip (pyRstripQuoteN (pyLstripNewline w.data))))

/-- Embedding of `ArticleTextCollection.sanitized_word_list`: split the
raw word-list string on newlines, drop empty entries, sanitize each and
collect the results into a set. -/
def sanitized_word_list (word_list : String) : Finset String :=
  (((splitLines word_list.data).filter (fun w => w ≠ [])).map
    (fun w => sanitizeEntry (String.mk w))).toFinset

/-! ## Column/page flow (`DocumentWriter._fill_words_into_columns`) -/

/-- Module-level constant `MAX_WORDS_PER_COLUMN = 17` from the source. -/
def MAX_WORDS_PER_COLUMN : Nat := 17

/-- One two-column table (`word_list.rows[0].cells`); each column holds
its entries in insertion order. -/
structure Page where
  col1 : List String
  col2 : List String
  deriving DecidableEq

/-- The loop body of `_fill_words_into_columns`, with the per-column
capacity as an explicit parameter (the source uses the constant
`MAX_WORDS_PER_COLUMN`): append to column 1 while it has room, else to
column 2, else close the page and start a new one whose column 1 holds
the triggering word, with counters reset to `(1, 0)`. -/
def fillLoop (cap : Nat) : List String → Page → Nat → Nat → List Page
  | [], cur, _, _ => [cur]
  | w :: ws, cur, c1, c2 =>
    if c1 < cap then
      fillLoop cap ws { cur with col1 := cur.col1 ++ [w] } (c1 + 1) c2
    else if c2 < cap then
      fillLoop cap ws { cur with col2 := cur.col2 ++ [w] } c1 (c2 + 1)
    else
      cur :: fillLoop cap ws { col1 := [w], col2 := [] } 1 0

/-- Embedding of `_fill_words_into_columns`: the caller hands the loop a
fresh empty table and both counters start at zero. -/
def fillWordsIntoColumns (cap : Nat) (words : List String) : List Page :=
  fillLoop cap words { col1 := [], col2 := [] } 0 0

/-! ## Per-article collection (`Main._get_text_collection`) -/

structure ArticleMetadata where
  title : String
  chinese_title : String
  url : String
  tags : String
  hsk_tag : String
  deriving DecidableEq

structure ArticleTextCollection extends ArticleMetadata where
  main_text : String
  word_list : String
  deriving DecidableEq

/-- Embedding of the loop of `Main._get_text_collection` (non-cached
path): the fetcher is a function from URL to an optional
`(main_text, word_list)` pair, `none` modelling any raised exception,
on which the article is skipped (`continue`) and nothing is appended. -/
def getTextCollection (fetch : String → Option (String × String)) :
    List ArticleMetadata → List ArticleTextCollection
  | [] => []
  | a :: rest =>
    match fetch a.url with
    | none => getTextCollection fetch rest
    | some (mt, wl) =>
      { title := a.title, chinese_title := a.chinese_title, url := a.url,
        tags := a.tags, hsk_tag := a.hsk_tag,
        main_text := mt, word_list := wl } :: getTextCollection fetch rest

/-! ## Theorems about the column/page flow engine -/

/-- Main invariant of the fill loop: when the counters agree with the
column lengths, both are within capacity, and column 2 is only nonempty
once column 1 is full, every produced page respects the capacity and the
pages enumerate exactly the current page's contents followed by the
remaining words. -/
lemma fillLoop_spec (cap : Nat) (hcap : 1 ≤ cap) (ws : List String) :
    ∀ (p : Page) (c1 c2 : Nat), c1 = p.col1.length → c2 = p.col2.length →
      c1 ≤ cap → c2 ≤ cap → (p.col2 ≠ [] → c1 = cap) →
      (∀ q ∈ fillLoop cap ws p c1 c2,
          q.col1.length ≤ cap ∧ q.col2.length ≤ cap) ∧
        ((fillLoop cap ws p c1 c2).map (fun q => q.col1 ++ q.col2)).flatten
          = p.col1 ++ p.col2 ++ ws := by
  induction ws with
  | nil =>
    intro p c1 c2 e1 e2 h1 h2 _
    subst e1; subst e2
    refine ⟨?_, by simp [fillLoop]⟩
    intro q hq
    simp only [fillLoop, List.mem_singleton] at hq
    subst hq
    exact ⟨h1, h2⟩
  | cons w ws ih =>
    intro p c1 c2 e1 e2 h1 h2 h3
    subst e1; subst e2
    by_cases hc1 : p.col1.length < cap
    · have hcol2 : p.col2 = [] := by
        by_contra hne
        exact absurd (h3 hne) (Nat.ne_of_lt hc1)
      have H := ih { col1 := p.col1 ++ [w], col2 := p.col2 }
        (p.col1.length + 1) p.col2.length (by simp) (by simp)
        (by omega) h2 (fun hne => absurd hcol2 hne)
      simp only [fillLoop, if_pos hc1]
      refine ⟨H.1, ?_⟩
      rw [H.2]
      simp [hcol2]
    · have hc1e : p.col1.length = cap := Nat.le_antisymm h1 (Nat.not_lt.mp hc1)
      by_cases hc2 : p.col2.length < cap
      · have H := ih { col1 := p.col1, col2 := p.col2 ++ [w] }
          p.col1.length (p.col2.length + 1) (by simp) (by simp)
          h1 (by omega) (fun _ => hc1e)
        simp only [fillLoop, if_neg hc1, if_pos hc2]
        refine ⟨H.1, ?_⟩
        rw [H.2]
        simp
      · have H := ih { col1 := [w], col2 := [] } 1 0 (by simp) (by simp)
          hcap (Nat.zero_le _) (fun hne => absurd rfl hne)
        simp only [fillLoop, if_neg hc1, if_neg hc2]
        constructor
        · intro q hq
          rcases List.mem_cons.mp hq with hq | hq
          · subst hq; exact ⟨h1, h2⟩
          · exact H.1 q hq
        · simp only [List.map_cons, List.flatten_cons]
          rw [H.2]
          simp

/-- C4: for every input word sequence and every capacity `cap ≥ 1`, the
flow produces pages in which every column holds at most `cap` entries,
concatenating the pages' columns (column 1 then column 2, page by page)
reproduces the input sequence exactly — so every word appears in exactly
one column of exactly one page, in input order — and the total entry
count equals the input size. -/
theorem C4_flow_invariants (words : List String) (cap : Nat) (hcap : 1 ≤ cap) :
    (∀ q ∈ fillWordsIntoColumns cap words,
        q.col1.length ≤ cap ∧ q.col2.length ≤ cap) ∧
      ((fillWordsIntoColumns cap words).map (fun q => q.col1 ++ q.col2)).flatten
          = words ∧
      ((fillWordsIntoColumns cap words).map
          (fun q => q.col1.length + q.col2.length)).sum = words.length := by
  have H := fillLoop_spec cap hcap words { col1 := [], col2 := [] } 0 0 rfl rfl
    (Nat.zero_le _) (Nat.zero_le _) (fun hne => absurd rfl hne)
  have h2 : ((fillWordsIntoColumns cap words).map
      (fun q => q.col1 ++ q.col2)).flatten = words := by
    simpa [fillWordsIntoColumns] using H.2
  refine ⟨H.1, h2, ?_⟩
  have := congrArg List.length h2
  simp only [List.length_flatten, List.map_map, Function.comp_def,
    List.length_append] at this
  exact this

/-- Closed witness for `C4_flow_invariants` at capacity 2 and the word
sequence of the specification's worked example. -/
theorem C4_flow_invariants_witness :
    (∀ q ∈ fillWordsIntoColumns 2 ["a", "b", "c", "d", "e"],
        q.col1.length ≤ 2 ∧ q.col2.length ≤ 2) ∧
      ((fillWordsIntoColumns 2 ["a", "b", "c", "d", "e"]).map
          (fun q => q.col1 ++ q.col2)).flatten = ["a", "b", "c", "d", "e"] ∧
      ((fillWordsIntoColumns 2 ["a", "b", "c", "d", "e"]).map
          (fun q => q.col1.length + q.col2.length)).sum
        = (["a", "b", "c", "d", "e"] : List String).length :=
  C4_flow_invariants ["a", "b", "c", "d", "e"] 2 (by decide)

/-- C5: with capacity 2 and input `["a","b","c","d","e"]`, the flow
yields page 1 with column 1 `["a","b"]` and column 2 `["c","d"]`, and
page 2 with column 1 `["e"]` and an empty column 2; the overflowing
word `"e"` opens the new page as the first entry of its column 1. -/
theorem C5_flow_capacity_two_example :
    fillWordsIntoColumns 2 ["a", "b", "c", "d", "e"] =
      [{ col1 := ["a", "b"], col2 := ["c", "d"] },
       { col1 := ["e"], col2 := [] }] := rfl

/-- C9: the pagination of the sanitize-then-flow pipeline is a function
of the iteration order of the sanitized word set, which the source keeps
in a plain Python `set` with no order guarantee across runs: the two
lists below enumerate the same sanitized set `sanitized_word_list "a\nb"`
yet flow to different pages, so identical page contents across runs are
not ensured by the code. -/
theorem C9_pagination_depends_on_iteration_order :
    (["a", "b"] : List String).toFinset = sanitized_word_list "a\nb" ∧
      (["b", "a"] : List String).toFinset = sanitized_word_list "a\nb" ∧
      fillWordsIntoColumns 1 ["a", "b"] ≠ fillWordsIntoColumns 1 ["b", "a"] := by
  refine ⟨by decide, by decide, by decide⟩

/-- C10: sanitization right-strips `"` and `n` characters from every
entry, so a formatted entry whose gloss ends in the letter `n` loses that
letter: the canonical entry for `"你 (ni): Pattern"` is
`"你 (ni): Patter"`, not the formatted string itself. -/
theorem C10_trailing_n_stripped :
    sanitizeEntry "你 (ni): Pattern" = "你 (ni): Patter" ∧
      sanitized_word_list "你 (ni): Pattern" = {"你 (ni): Patter"} ∧
      ("你 (ni): Patter" : String) ≠ "你 (ni): Pattern" := by
  refine ⟨by decide, by decide, by decide⟩

/-! ## Theorems about the per-article collection loop -/

/-- C8: an article whose fetch/extraction raises is skipped, the
remaining articles are still processed, and no partial entry for the
failed article appears: the output collection equals the one computed
for the article list with the failing article removed. -/
theorem C8_failed_fetch_skipped (fetch : String → Option (String × String))
    (pre post : List ArticleMetadata) (a : ArticleMetadata)
    (h : fetch a.url = none) :
    getTextCollection fetch (pre ++ a :: post)
      = getTextCollection fetch (pre ++ post) := by
  induction pre with
  | nil => simp only [List.nil_append, getTextCollection, h]
  | cons b pre ih =>
    cases hfb : fetch b.url with
    | none =>
      simp only [List.cons_append, getTextCollection, hfb]
      exact ih
    | some v =>
      obtain ⟨mt, wl⟩ := v
      simp only [List.cons_append, getTextCollection, hfb]
      exact congrArg _ ih

/-- A fetch capability failing exactly on the URL `"https://bad"`. -/
def exampleFetch : String → Option (String × String) :=
  fun u => if u = "https://bad" then none else some ("text", "words")

def metaGoodOne : ArticleMetadata :=
  { title := "T1", chinese_title := "题一", url := "https://ok1",
    tags := "Culture", hsk_tag := "HSK4" }

def metaBad : ArticleMetadata :=
  { title := "T2", chinese_title := "题二", url := "https://bad",
    tags := "Culture", hsk_tag := "HSK5" }

def metaGoodTwo : ArticleMetadata :=
  { title := "T3", chinese_title := "题三", url := "https://ok2",
    tags := "News", hsk_tag := "HSK6" }

/-- Closed witness for `C8_failed_fetch_skipped`. -/
theorem C8_failed_fetch_skipped_witness :
    getTextCollection exampleFetch ([metaGoodOne] ++ metaBad :: [metaGoodTwo])
      = getTextCollection exampleFetch ([metaGoodOne] ++ [metaGoodTwo]) :=
  C8_failed_fetch_skipped exampleFetch [metaGoodOne] [metaGoodTwo] metaBad
    (by decide)

/-! ## Theorems about vocabulary extraction -/

/-- If extracting the tail of the tag list fails, extracting any longer
list fails as well: the exception propagates out of the whole loop. -/
lemma soupToRawLookupList_cons_none (t : AbbrTag) {rest : List AbbrTag}
    (h : soupToRawLookupList rest = none) :
    soupToRawLookupList (t :: rest) = none := by
  by_cases hs : skipByLevel (lastLine t.title) <;>
    cases htr : t.tr <;> cases hrt : t.rt <;>
      simp [soupToRawLookupList, hs, htr, hrt, h]

def tagChina : AbbrTag :=
  { title := "China (HSK5)", tr := some "中國", rt := some "Zhongguo" }

/-- A tooltip whose `.tr` sub-span is missing and whose title carries no
HSK marker, so the level filter does not skip it. -/
def tagBroken : AbbrTag :=
  { title := "Mystery word", tr := none, rt := some "shenme" }

def tagHello : AbbrTag :=
  { title := "Hello HSK6", tr := some "你好", rt := some "nihao" }

/-- C2 counterexample: on the page `[tagChina, tagBroken, tagHello]`,
where only `tagBroken` is missing its traditional-character sub-span,
extraction of the whole page fails (`none`) instead of returning the
entries of the two intact annotations — which is exactly what extraction
returns once the malformed tag is removed. -/
theorem C2_counterexample :
    soupToRawLookupList [tagChina, tagBroken, tagHello] = none ∧
      soupToRawLookupList [tagChina, tagHello] =
        some [("China (HSK5)", "Zhongguo", "中國"),
              ("Hello HSK6", "nihao", "你好")] := by
  refine ⟨by decide, by decide⟩

/-- C2 (amended): an annotation element that the level filter does not
skip and that is missing a required sub-span makes the extraction of the
whole page fail, wherever it sits in the tag list; no per-word recovery
happens (the caller then drops the entire article). -/
theorem C2_missing_subspan_aborts_page (pre post : List AbbrTag) (t : AbbrTag)
    (hskip : skipByLevel (lastLine t.title) = false)
    (hmiss : t.tr = none ∨ t.rt = none) :
    soupToRawLookupList (pre ++ t :: post) = none := by
  induction pre with
  | nil =>
    rw [List.nil_append]
    rcases hmiss with h | h <;>
      cases htr : t.tr <;> cases hrt : t.rt <;>
        simp_all [soupToRawLookupList, hskip]
  | cons b pre ih =>
    rw [List.cons_append]
    exact soupToRawLookupList_cons_none b ih

/-- Closed witness for `C2_missing_subspan_aborts_page`. -/
theorem C2_missing_subspan_aborts_page_witness :
    soupToRawLookupList ([tagChina] ++ tagBroken :: [tagHello]) = none :=
  C2_missing_subspan_aborts_page [tagChina] [tagHello] tagBroken
    (by decide) (Or.inl rfl)

/-- C6: for an annotation with both sub-spans present, extraction
excludes the word exactly when the last title line parses to an HSK
level strictly below `MIN_HSK_LEVEL`, and a word with no parsable
marker is always retained with its full triple. -/
theorem C6_level_filter (t : AbbrTag) (trv rtv : String)
    (h1 : t.tr = some trv) (h2 : t.rt = some rtv) :
    (soupToRawLookupList [t] = some [] ↔
        ∃ l, searchHSK (lastLine t.title) = some l ∧ l < MIN_HSK_LEVEL) ∧
      (searchHSK (lastLine t.title) = none →
        soupToRawLookupList [t]
          = some [(lastLine t.title, replaceNbsp rtv, trv)]) := by
  cases hs : searchHSK (lastLine t.title) with
  | none =>
    have hskip : skipByLevel (lastLine t.title) = false := by
      simp [skipByLevel, hs]
    constructor
    · constructor
      · intro hcontra
        simp [soupToRawLookupList, hskip, h1, h2] at hcontra
      · rintro ⟨l, hl, _⟩
        exact Option.noConfusion hl
    · intro _
      simp [soupToRawLookupList, hskip, h1, h2]
  | some l =>
    by_cases hlt : l < MIN_HSK_LEVEL
    · have hskip : skipByLevel (lastLine t.title) = true := by
        simp [skipByLevel, hs, hlt]
      constructor
      · constructor
        · intro _
          exact ⟨l, rfl, hlt⟩
        · intro _
          simp [soupToRawLookupList, hskip]
      · intro hnone
        exact Option.noConfusion hnone
    · have hskip : skipByLevel (lastLine t.title) = false := by
        simp [skipByLevel, hs, hlt]
      constructor
      · constructor
        · intro hcontra
          simp [soupToRawLookupList, hskip, h1, h2] at hcontra
        · rintro ⟨l2, hl2, hlt2⟩
          injection hl2 with he
          subst he
          exact absurd hlt2 hlt
      · intro hnone
        exact Option.noConfusion hnone

/-- A word whose tooltip declares explicit level 2, below the minimum. -/
def tagLow : AbbrTag :=
  { title := "好\nGood HSK2", tr := some "好", rt := some "hao" }

/-! ## Theorems about word-list sanitization -/

/-- The first character of the entry would be eaten by `lstrip`/`strip`. -/
def headBad (w : List Char) : Bool :=
  match w.head? with
  | some c => c.isWhitespace
  | none => false

/-- The last character of the entry would be eaten by
`rstrip('"n')`/`strip`. -/
def lastBad (w : List Char) : Bool :=
  match w.getLast? with
  | some c => c = '"' || c = 'n' || c.isWhitespace
  | none => false

/-- Some `\(HSK\d+\)` tag occurs in the entry. -/
def hasHSKTag (w : List Char) : Bool :=
  (List.range (w.length + 1)).any (fun i => (hskTagAt w i).isSome)

lemma dropWhile_eq_self_of_head {p : Char → Bool} {l : List Char}
    (h : ∀ c, l.head? = some c → p c = false) : l.dropWhile p = l := by
  cases l with
  | nil => rfl
  | cons a l => simp [List.dropWhile_cons, h a rfl]

lemma subAt_false_of_ge {s pat : List Char} {i : Nat} (hpat : pat ≠ [])
    (h : s.length ≤ i) : subAt s i pat = false := by
  unfold subAt
  rw [List.drop_eq_nil_of_le h]
  cases pat with
  | nil => exact absurd rfl hpat
  | cons a l => rfl

lemma hskTagAt_none_of_ge {s : List Char} {i : Nat} (h : s.length ≤ i) :
    hskTagAt s i = none := by
  unfold hskTagAt
  rw [subAt_false_of_ge (by decide) h]
  rfl

lemma removeHSKAux_eq_drop {s : List Char} (h : ∀ i, hskTagAt s i = none) :
    ∀ fuel i, s.length - i < fuel → removeHSKAux s fuel i = s.drop i := by
  intro fuel
  induction fuel with
  | zero => omega
  | succ n ih =>
    intro i hi
    by_cases hlt : i < s.length
    · simp only [removeHSKAux, dif_pos hlt, h i]
      rw [ih (i + 1) (by omega)]
      rw [List.get_eq_getElem]
      exact (List.drop_eq_getElem_cons hlt).symm
    · simp only [removeHSKAux, dif_neg hlt]
      rw [List.drop_eq_nil_of_le (by omega)]

lemma removeHSKTags_eq_self {s : List Char} (h : hasHSKTag s = false) :
    removeHSKTags s = s := by
  have hall : ∀ i, hskTagAt s i = none := by
    intro i
    by_cases hi : i < s.length + 1
    · have := List.any_eq_false.mp h i (List.mem_range.mpr hi)
      simpa [Option.isNone_iff_eq_none] using this
    · exact hskTagAt_none_of_ge (by omega)
  unfold removeHSKTags
  rw [removeHSKAux_eq_drop hall (s.length + 1) 0 (by omega)]
  rfl

/-- C7 (amended): sanitization fixes every entry that does not start
with whitespace, does not end with `"`, `n` or whitespace, and contains
no `(HSK<digits>)` tag; the claimed unconditional idempotence fails
because removing such a tag can expose fresh trailing characters (see
the counterexample). -/
theorem C7_sanitize_fixed_point (w : String) (hh : headBad w.data = false)
    (hl : lastBad w.data = false) (ht : hasHSKTag w.data = false) :
    sanitizeEntry w = w := by
  have hhead : ∀ c, w.data.head? = some c → c.isWhitespace = false := by
    intro c hc
    unfold headBad at hh
    rw [hc] at hh
    exact hh
  have hlast : ∀ c, w.data.getLast? = some c →
      (c = '"' || c = 'n' || c.isWhitespace) = false := by
    intro c hc
    unfold lastBad at hl
    rw [hc] at hl
    exact hl
  have e1 : pyLstripNewline w.data = w.data := by
    apply dropWhile_eq_self_of_head
    intro c hc
    have hw := hhead c hc
    by_cases hcn : c = '\n'
    · subst hcn
      simp at hw
    · simp [hcn]
  have e2 : pyRstripQuoteN w.data = w.data := by
    have hdw : w.data.reverse.dropWhile (fun c => c = '"' || c = 'n')
        = w.data.reverse := by
      apply dropWhile_eq_self_of_head
      intro c hc
      rw [List.head?_reverse] at hc
      have h := hlast c hc
      simp only [Bool.or_eq_false_iff] at h
      simp only [Bool.or_eq_false_iff]
      exact ⟨h.1.1, h.1.2⟩
    unfold pyRstripQuoteN
    rw [hdw, List.reverse_reverse]
  have e3 : pyStrip w.data = w.data := by
    have hdw2 : w.data.reverse.dropWhile Char.isWhitespace
        = w.data.reverse := by
      apply dropWhile_eq_self_of_head
      intro c hc
      rw [List.head?_reverse] at hc
      have h := hlast c hc
      simp only [Bool.or_eq_false_iff] at h
      exact h.2
    unfold pyStrip
    rw [dropWhile_eq_self_of_head hhead, hdw2, List.reverse_reverse]
  unfold sanitizeEntry
  rw [e1, e2, e3, removeHSKTags_eq_self ht]

/-- Closed witness for `C7_sanitize_fixed_point`. -/
theorem C7_sanitize_fixed_point_witness :
    sanitizeEntry "中國 (Zhongguo): China" = "中國 (Zhongguo): China" :=
  C7_sanitize_fixed_point "中國 (Zhongguo): China" (by decide) (by decide)
    (by decide)

/-- C7 counterexample: sanitization is not idempotent — on the entry
`"foo (HSK5)"` the first pass strips nothing and then deletes the
`(HSK5)` tag, leaving the trailing space `"foo "`, which a second pass
strips down to `"foo"`; at set level, re-sanitizing the produced set
changes it. -/
theorem C7_counterexample :
    sanitizeEntry "foo (HSK5)" = "foo " ∧
      sanitizeEntry "foo " = "foo" ∧ ("foo " : String) ≠ "foo" ∧
      (sanitized_word_list "foo (HSK5)").image sanitizeEntry
        ≠ sanitized_word_list "foo (HSK5)" := by
  refine ⟨by decide, by decide, by decide, by decide⟩

/-- Closed witness for `C6_level_filter`. -/
theorem C6_level_filter_witness :
    (soupToRawLookupList [tagLow] = some [] ↔
        ∃ l, searchHSK (lastLine tagLow.title) = some l ∧ l < MIN_HSK_LEVEL) ∧
      (searchHSK (lastLine tagLow.title) = none →
        soupToRawLookupList [tagLow]
          = some [(lastLine tagLow.title, replaceNbsp "hao", "好")]) :=
  C6_level_filter tagLow "好" "hao" rfl rfl

/-! ## Theorems about sentence reconstruction -/

lemma subAt_false_of_not_occurs {s pat : List Char} (hpat : pat ≠ [])
    (h : occursIn s pat = false) : ∀ i, subAt s i pat = false := by
  intro i
  by_cases hi : i < s.length + 1
  · have := List.any_eq_false.mp h i (List.mem_range.mpr hi)
    simpa using this
  · exact subAt_false_of_ge hpat (by omega)

lemma scanPunct_eq_nil {s : List Char}
    (h : ∀ i, subAt s i abbrCloseTag = false) :
    ∀ fuel i, scanPunct s fuel i = [] := by
  intro fuel
  induction fuel with
  | zero => intro i; rfl
  | succ n ih =>
    intro i
    have hp : punctAt s i = none := by
      unfold punctAt
      rw [h i]
      simp
    simp [scanPunct, hp, ih]

lemma scanTr_eq_nil {s : List Char}
    (h : ∀ i, subAt s i trOpenTag = false) :
    ∀ fuel i, scanTr s fuel i = [] := by
  intro fuel
  induction fuel with
  | zero => intro i; rfl
  | succ n ih =>
    intro i
    have hp : trAt s i = none := by
      unfold trAt
      rw [h i]
      simp
    simp [scanTr, hp, ih]

lemma scanEop_eq_nil {s : List Char}
    (h : ∀ i, subAt s i abbrCloseTag = false) :
    ∀ fuel i, scanEop s fuel i = [] := by
  intro fuel
  induction fuel with
  | zero => intro i; rfl
  | succ n ih =>
    intro i
    have hp : eopAt s i = none := by
      unfold eopAt
      rw [h i]
      simp
    simp [scanEop, hp, ih]

/-- C1 (amended): a paragraph whose markup contains no `</abbr>` close
tag and no `<span class="tr">` span — in particular any paragraph with
zero annotation elements — reconstructs to the empty string whatever
literal text it holds, because all three fragment scans are anchored on
annotation markup; the claimed return of the trailing literal text fails
(see the counterexample). -/
theorem C1_no_annotation_reconstructs_empty (s : String)
    (h1 : occursIn s.data abbrCloseTag = false)
    (h2 : occursIn s.data trOpenTag = false) :
    _paragraph_to_text s = "" := by
  have ha := subAt_false_of_not_occurs (by decide) h1
  have htr := subAt_false_of_not_occurs (by decide) h2
  have e1 : scanPunct s.data (s.data.length + 1) 0 = [] :=
    scanPunct_eq_nil ha _ _
  have e2 : scanTr s.data (s.data.length + 1) 0 = [] :=
    scanTr_eq_nil htr _ _
  have e3 : scanEop s.data (s.data.length + 1) 0 = [] :=
    scanEop_eq_nil ha _ _
  unfold _paragraph_to_text combinedFragments
  rw [e1, e2, e3]
  rfl

/-- Closed witness for `C1_no_annotation_reconstructs_empty`. -/
theorem C1_no_annotation_reconstructs_empty_witness :
    _paragraph_to_text "<p>Hi.</p>" = "" :=
  C1_no_annotation_reconstructs_empty "<p>Hi.</p>" (by decide) (by decide)

/-- C1 counterexample: the paragraph markup `"<p>Hi.</p>"` contains zero
annotation elements and the non-empty literal trailing text `"Hi."`,
yet reconstruction returns the empty string, not that text. -/
theorem C1_counterexample :
    occursIn ("<p>Hi.</p>".data) abbrOpenTag = false ∧
      _paragraph_to_text "<p>Hi.</p>" = "" ∧ ("" : String) ≠ "Hi." := by
  refine ⟨by decide, by decide, by decide⟩

/-- The raw markup of the specification's two-word example paragraph:
annotation `A` renders traditional character `你`, annotation `B`
renders `好`, a comma sits between them and a full stop ends the
paragraph. -/
def exampleParagraph : String :=
  "<p><abbr rel=\"tooltip\" title=\"t1\"><ruby><span class=\"si\">你</span><span class=\"tr\">你</span><rt>ni</rt></ruby></abbr>,<abbr rel=\"tooltip\" title=\"t2\"><ruby><span class=\"si\">好</span><span class=\"tr\">好</span><rt>hao</rt></ruby></abbr>.</p>"

set_option maxRecDepth 100000 in
set_option maxHeartbeats 1000000 in
/-- C3: evaluating the reconstruction at the specification's worked
example.  The greedy `</abbr>(.*)</p>` scan matches from the first
annotation close to the final `</p>`, and its fragment overrides the
comma fragment recorded at the same offset by the dict union, so the
output contains the raw markup of the second annotation instead of being
`"你,好."`. -/
theorem C3_failing_eval :
    _paragraph_to_text exampleParagraph =
      "你,<abbr rel=\"tooltip\" title=\"t2\"><ruby><span class=\"si\">好</span><span class=\"tr\">好</span><rt>hao</rt></ruby></abbr>.好" ∧
      _paragraph_to_text exampleParagraph ≠ "你,好." := by
  refine ⟨by decide, by decide⟩

end MandarinBean
